import Mathlib

/-!
Verification of the block-grid / hover-highlight core of MinecraftClone-Rust
(`src/blocks.rs`), shallowly embedded in Lean.

Modelling conventions:
* `Vec3` carries exact rationals; `FP` is an idealized 32-bit float value:
  NaN, signed infinity, or an exact rational.  Arithmetic on finite values is
  exact (no rounding/overflow), while the IEEE special-value rules relevant to
  the slab test are modelled exactly: division by zero yields NaN (0/0) or a
  signed infinity, Rust's `f32::min`/`f32::max` ignore a NaN argument, and the
  comparison operators `<`/`>` evaluate to `false` whenever an operand is NaN.
* A Bevy `Entity` participating in the relevant queries is a record with its
  id, `Block` tag, `Transform` translation, `MeshMaterial3d` handle (a `ℕ`
  standing for `Handle<StandardMaterial>`), and `BlockHighlight` tag.  The
  field `block` means "matches the blocks query", i.e. the entity has the
  `Block` tag together with a transform and a material.
* `Camera.viewport_to_world` stands for the engine's unprojection
  (`Camera::viewport_to_world`), an external collaborator; the source
  additionally normalizes `ray.direction` (already a unit `Dir3`), so
  `Ray.direction` here denotes that normalized direction.
* Bevy's deferred `Commands` (tag insert/remove) and the immediate `Mut`
  material writes both land before the next system run; the embedding returns
  the world state after they are applied.
-/

set_option maxRecDepth 8000

namespace MinecraftClone

/-- A 3-component vector of exact rationals (models `bevy::math::Vec3`). -/
structure Vec3 where
  x : ℚ
  y : ℚ
  z : ℚ
deriving DecidableEq

def Vec3.sub (a b : Vec3) : Vec3 := ⟨a.x - b.x, a.y - b.y, a.z - b.z⟩

def Vec3.add (a b : Vec3) : Vec3 := ⟨a.x + b.x, a.y + b.y, a.z + b.z⟩

/-- Models `Vec3::splat`. -/
def Vec3.splat (q : ℚ) : Vec3 := ⟨q, q, q⟩

/-- Idealized `f32` value: NaN, an infinity (`inf true` is `+∞`,
`inf false` is `-∞`), or an exact finite rational. -/
inductive FP where
  | nan : FP
  | inf : Bool → FP
  | fin : ℚ → FP
deriving DecidableEq

def FP.isNaN : FP → Bool
  | .nan => true
  | _ => false

/-- IEEE-754 `<` as used by Rust's `f32 < f32`: any comparison involving NaN
is `false`; otherwise `-∞ < finite < +∞` with the rational order on finite
values. -/
def flt : FP → FP → Bool
  | .nan, _ => false
  | _, .nan => false
  | .inf a, .inf b => !a && b
  | .inf a, .fin _ => !a
  | .fin _, .inf b => b
  | .fin a, .fin b => decide (a < b)

/-- IEEE-754 `≤` on non-NaN values (comparisons involving NaN are `false`). -/
def fle : FP → FP → Bool
  | .nan, _ => false
  | _, .nan => false
  | .inf a, .inf b => (a == b) || (!a && b)
  | .inf a, .fin _ => !a
  | .fin _, .inf b => b
  | .fin a, .fin b => decide (a ≤ b)

/-- Rust's `f32::min`: if one argument is NaN the other is returned. -/
def fmin : FP → FP → FP
  | .nan, b => b
  | a, .nan => a
  | a, b => if flt a b then a else b

/-- Rust's `f32::max`: if one argument is NaN the other is returned. -/
def fmax : FP → FP → FP
  | .nan, b => b
  | a, .nan => a
  | a, b => if flt a b then b else a

/-- Float division of finite values as it appears in the slab test:
`0/0 = NaN`, `a/0 = ±∞` for `a ≠ 0`, exact quotient otherwise. -/
def fdivQ (a b : ℚ) : FP :=
  if b = 0 then (if a = 0 then .nan else .inf (decide (0 < a))) else .fin (a / b)

/-- `f32::MAX`, the initial value of `closest_distance`. -/
def f32Max : ℚ := 2 ^ 128 - 2 ^ 104

/-- `let max_distance = 5.0;` — maximum distance for block selection. -/
def max_distance : FP := .fin 5

/-- The resource `BlockMaterials { normal, highlighted }`; handles are `ℕ`. -/
structure BlockMaterials where
  normal : ℕ
  highlighted : ℕ
deriving DecidableEq

/-- An entity as seen by the queries of `highlight_hovered_block`.
`block` = matches `Query<(Entity, &Transform, &mut MeshMaterial3d<..>), With<Block>>`;
`highlight` = carries the `BlockHighlight` tag. -/
structure Entity where
  id : ℕ
  block : Bool
  pos : Vec3
  material : ℕ
  highlight : Bool
deriving DecidableEq

/-- Models `&Window` (only `width()`/`height()` are consumed). -/
structure Window where
  width : ℚ
  height : ℚ

/-- A world-space ray produced by unprojection (`Ray3d`); `direction` is the
normalized direction (the source's `ray.direction.normalize()`). -/
structure Ray where
  origin : Vec3
  direction : Vec3

/-- The single active 3D camera together with its global transform, exposed
through the engine call `Camera::viewport_to_world` (which may fail). -/
structure Camera where
  viewport_to_world : ℚ × ℚ → Option Ray

/-- `Query::get_single`: succeeds only on exactly one match. -/
def getSingle {α : Type} : List α → Option α
  | [a] => some a
  | _ => none

/-- The six per-axis slab parameters of one ray/AABB test. -/
structure SlabTs where
  t1 : FP
  t2 : FP
  t3 : FP
  t4 : FP
  t5 : FP
  t6 : FP
deriving DecidableEq

def SlabTs.hasNaN (t : SlabTs) : Bool :=
  t.t1.isNaN || t.t2.isNaN || t.t3.isNaN || t.t4.isNaN || t.t5.isNaN || t.t6.isNaN

/-- The six divisions of the slab test for one block, exactly as in the loop
body of `highlight_hovered_block`: `let block_size = 1.0;`,
`min = block_pos - Vec3::splat(block_size / 2.0)`,
`max = block_pos + Vec3::splat(block_size / 2.0)`,
`t1 = (min.x - ray.origin.x) / ray_direction.x`, etc. -/
def slab_ts (ray_origin ray_direction block_pos : Vec3) : SlabTs :=
  let block_size : ℚ := 1
  let mn := Vec3.sub block_pos (Vec3.splat (block_size / 2))
  let mx := Vec3.add block_pos (Vec3.splat (block_size / 2))
  { t1 := fdivQ (mn.x - ray_origin.x) ray_direction.x
    t2 := fdivQ (mx.x - ray_origin.x) ray_direction.x
    t3 := fdivQ (mn.y - ray_origin.y) ray_direction.y
    t4 := fdivQ (mx.y - ray_origin.y) ray_direction.y
    t5 := fdivQ (mn.z - ray_origin.z) ray_direction.z
    t6 := fdivQ (mx.z - ray_origin.z) ray_direction.z }

/-- `tmin`/`tmax` of the slab test:
`tmin = t1.min(t2).max(t3.min(t4)).max(t5.min(t6))`,
`tmax = t1.max(t2).min(t3.max(t4)).min(t5.max(t6))`. -/
def rayAABB (ray_origin ray_direction block_pos : Vec3) : FP × FP :=
  let t := slab_ts ray_origin ray_direction block_pos
  (fmax (fmax (fmin t.t1 t.t2) (fmin t.t3 t.t4)) (fmin t.t5 t.t6),
   fmin (fmin (fmax t.t1 t.t2) (fmax t.t3 t.t4)) (fmax t.t5 t.t6))

/-- The entry parameter `tmin` of the slab test for a block position. -/
def tentry (o d p : Vec3) : FP := (rayAABB o d p).1

/-- The exit parameter `tmax` of the slab test for a block position. -/
def texit (o d p : Vec3) : FP := (rayAABB o d p).2

/-- A block passes the per-block tests of the loop and lies in pick range:
neither `continue` fires (`!(tmax < 0.0)`, `!(tmin > tmax)`) and
`tmin > 0.0 && tmin < max_distance`. -/
def condHit (o d : Vec3) (e : Entity) : Bool :=
  !(flt (texit o d e.pos) (.fin 0)) && !(flt (texit o d e.pos) (tentry o d e.pos)) &&
    (flt (.fin 0) (tentry o d e.pos) && flt (tentry o d e.pos) max_distance)

/-- The nearest-hit loop of `highlight_hovered_block`, folded over the block
list with state `(closest_block, closest_distance)`. -/
def findClosestAux (o d : Vec3) : List Entity → Option ℕ × FP → Option ℕ × FP
  | [], acc => acc
  | e :: rest, acc =>
    let tmin := tentry o d e.pos
    let tmax := texit o d e.pos
    if flt tmax (.fin 0) then findClosestAux o d rest acc
    else if flt tmax tmin then findClosestAux o d rest acc
    else if flt (.fin 0) tmin && flt tmin max_distance && flt tmin acc.2 then
      findClosestAux o d rest (some e.id, tmin)
    else findClosestAux o d rest acc

/-- The nearest-hit search started from `(None, f32::MAX)`. -/
def findClosest (o d : Vec3) (blocks : List Entity) : Option ℕ × FP :=
  findClosestAux o d blocks (none, .fin f32Max)

/-- Clear phase, per entity: for an entity carrying `BlockHighlight`, reset
its material to `block_materials.normal` if it is still in the blocks query,
and remove the mark regardless. -/
def clearEnt (block_materials : BlockMaterials) (e : Entity) : Entity :=
  if e.highlight then
    { e with material := if e.block then block_materials.normal else e.material,
             highlight := false }
  else e

def clearPhase (block_materials : BlockMaterials) (world : List Entity) : List Entity :=
  world.map (clearEnt block_materials)

/-- Apply phase, per entity: the closest block's entity id gets the
highlighted material (if it is in the blocks query) and the
`BlockHighlight` tag. -/
def applyEnt (block_materials : BlockMaterials) (eid : ℕ) (e : Entity) : Entity :=
  if e.id = eid then
    { e with material := if e.block then block_materials.highlighted else e.material,
             highlight := true }
  else e

def applyPhase (block_materials : BlockMaterials) (eid : ℕ) (world : List Entity) :
    List Entity :=
  world.map (applyEnt block_materials eid)

/-- One run of the `highlight_hovered_block` system: clear the previous
highlight, resolve the single camera and window (early return on failure),
unproject the screen-center cursor position, scan all blocks for the nearest
hit, and highlight it. -/
def highlight_hovered_block (windows : List Window) (cameras : List Camera)
    (block_materials : BlockMaterials) (world : List Entity) : List Entity :=
  let world1 := clearPhase block_materials world
  match getSingle cameras with
  | none => world1
  | some camera =>
    match getSingle windows with
    | none => world1
    | some window =>
      let cursor_position := (window.width / 2, window.height / 2)
      match camera.viewport_to_world cursor_position with
      | none => world1
      | some ray =>
        match (findClosest ray.origin ray.direction (world1.filter (fun e => e.block))).1 with
        | none => world1
        | some eid => applyPhase block_materials eid world1

/-- Modelled from the spec: the `Settings` resource (its module is not part
of this slice of the repository); §6 fixes `world.block_size` as a float and
`world.chunk_size` as an integer. -/
structure WorldSettings where
  block_size : ℚ
  chunk_size : ℕ

/-- Modelled from the spec: outer settings record accessed as
`settings.world.block_size` / `settings.world.chunk_size`. -/
structure Settings where
  world : WorldSettings

/-- What one `commands.spawn((..))` of `generate_chunk` produces. -/
structure Spawned where
  block : Bool
  visual_size : ℚ
  material : ℕ
  pos : Vec3
  visible : Bool
deriving DecidableEq

/-- `let grid_offset = 0.02;` — small gap between blocks for grid effect. -/
def grid_offset : ℚ := 2 / 100

/-- `generate_chunk`: for `z` and `x` in `0..chunk_size`, spawn a `Block`
with a cuboid mesh of edge `block_size - grid_offset`, the normal material,
translation `(x * block_size, 0.0, z * block_size)`, and `Visibility::Visible`. -/
def generate_chunk (block_materials : BlockMaterials) (settings : Settings) :
    List Spawned :=
  let block_size := settings.world.block_size
  let chunk_size := settings.world.chunk_size
  (List.range chunk_size).flatMap (fun (z : ℕ) =>
    (List.range chunk_size).map (fun (x : ℕ) =>
      { block := true
        visual_size := block_size - grid_offset
        material := block_materials.normal
        pos := ⟨(x : ℚ) * block_size, 0, (z : ℚ) * block_size⟩
        visible := true }))

/-- Size-generalized slab parameters: the hit test with an arbitrary AABB
edge length, for comparison with the fixed-size test in the source. -/
def slab_ts_sized (size : ℚ) (ray_origin ray_direction block_pos : Vec3) : SlabTs :=
  let mn := Vec3.sub block_pos (Vec3.splat (size / 2))
  let mx := Vec3.add block_pos (Vec3.splat (size / 2))
  { t1 := fdivQ (mn.x - ray_origin.x) ray_direction.x
    t2 := fdivQ (mx.x - ray_origin.x) ray_direction.x
    t3 := fdivQ (mn.y - ray_origin.y) ray_direction.y
    t4 := fdivQ (mx.y - ray_origin.y) ray_direction.y
    t5 := fdivQ (mn.z - ray_origin.z) ray_direction.z
    t6 := fdivQ (mx.z - ray_origin.z) ray_direction.z }

/-- Size-generalized `tmin`/`tmax`. -/
def rayAABB_sized (size : ℚ) (ray_origin ray_direction block_pos : Vec3) : FP × FP :=
  let t := slab_ts_sized size ray_origin ray_direction block_pos
  (fmax (fmax (fmin t.t1 t.t2) (fmin t.t3 t.t4)) (fmin t.t5 t.t6),
   fmin (fmin (fmax t.t1 t.t2) (fmax t.t3 t.t4)) (fmax t.t5 t.t6))

/-- The hit criterion in the spec's wording: `t_entry ≤ t_exit`, `t_exit ≥ 0`,
and the selection window `0 < t_entry < max_distance`. -/
def hit_spec (o d : Vec3) (e : Entity) : Bool :=
  fle (tentry o d e.pos) (texit o d e.pos) && fle (.fin 0) (texit o d e.pos) &&
    (flt (.fin 0) (tentry o d e.pos) && flt (tentry o d e.pos) max_distance)

/-! Concrete fixtures shared by explicit evaluations and witnesses. -/

def demoWin : Window := ⟨800, 600⟩

def demoRay : Ray := ⟨⟨0, 0, -3⟩, ⟨0, 0, 1⟩⟩

def demoCam : Camera := ⟨fun _ => some demoRay⟩

def demoBM : BlockMaterials := ⟨0, 1⟩

def demoWorld : List Entity := [⟨0, true, ⟨0, 0, 0⟩, 0, false⟩]

/-! Basic facts about the idealized float order and Rust `min`/`max`. -/

lemma flt_fin_iff {a b : ℚ} : flt (.fin a) (.fin b) = true ↔ a < b := by
  simp [flt]

lemma flt_fin_false_iff {a b : ℚ} : flt (.fin a) (.fin b) = false ↔ b ≤ a := by
  simp [flt, not_lt]

lemma fle_fin_iff {a b : ℚ} : fle (.fin a) (.fin b) = true ↔ a ≤ b := by
  simp [fle]

lemma flt_irrefl (a : FP) : flt a a = false := by
  cases a with
  | nan => rfl
  | inf s => cases s <;> rfl
  | fin q => simp [flt]

lemma fmin_eq_nan_iff {a b : FP} : fmin a b = .nan ↔ a = .nan ∧ b = .nan := by
  cases a <;> cases b <;> simp [fmin] <;> split <;> simp

lemma fmax_eq_nan_iff {a b : FP} : fmax a b = .nan ↔ a = .nan ∧ b = .nan := by
  cases a <;> cases b <;> simp [fmax] <;> split <;> simp

lemma fmax_posinf_left (b : FP) : fmax (.inf true) b = .inf true := by
  cases b with
  | nan => rfl
  | inf s => cases s <;> rfl
  | fin q => rfl

lemma fmax_posinf_right (a : FP) : fmax a (.inf true) = .inf true := by
  cases a with
  | nan => rfl
  | inf s => cases s <;> rfl
  | fin q => simp [fmax, flt]

lemma fmin_neginf_left (b : FP) : fmin (.inf false) b = .inf false := by
  cases b with
  | nan => rfl
  | inf s => cases s <;> rfl
  | fin q => rfl

lemma fmin_neginf_right (a : FP) : fmin a (.inf false) = .inf false := by
  cases a with
  | nan => rfl
  | inf s => cases s <;> simp [fmin, flt]
  | fin q => simp [fmin, flt]

lemma fdivQ_nan_iff {a b : ℚ} : fdivQ a b = .nan ↔ b = 0 ∧ a = 0 := by
  unfold fdivQ
  split
  · split <;> simp_all
  · simp_all

lemma fdivQ_zero_pos {a : ℚ} (h : 0 < a) : fdivQ a 0 = .inf true := by
  unfold fdivQ
  simp [h.ne', h]

lemma fdivQ_zero_neg {a : ℚ} (h : a < 0) : fdivQ a 0 = .inf false := by
  unfold fdivQ
  simp [h.ne, not_lt.2 h.le]

/-- On non-NaN values the float order is total: a failed `<` is a reversed `≤`. -/
lemma flt_false_iff_fle {a b : FP} (ha : a ≠ .nan) (hb : b ≠ .nan) :
    flt a b = false ↔ fle b a = true := by
  cases a with
  | nan => exact absurd rfl ha
  | inf s =>
    cases b with
    | nan => exact absurd rfl hb
    | inf t => cases s <;> cases t <;> simp [flt, fle]
    | fin q => cases s <;> simp [flt, fle]
  | fin q =>
    cases b with
    | nan => exact absurd rfl hb
    | inf t => cases t <;> simp [flt, fle]
    | fin r => simp [flt, fle, not_lt]

/-! Facts about the slab test of `highlight_hovered_block`. -/

lemma isNaN_iff {t : FP} : t.isNaN = true ↔ t = .nan := by
  cases t <;> simp [FP.isNaN]

lemma fmin_nan_left (b : FP) : fmin .nan b = b := by cases b <;> rfl

lemma fmin_nan_right (a : FP) : fmin a .nan = a := by cases a <;> rfl

lemma fmax_nan_left (b : FP) : fmax .nan b = b := by cases b <;> rfl

lemma fmax_nan_right (a : FP) : fmax a .nan = a := by cases a <;> rfl

lemma slab_t1_eq (o d p : Vec3) :
    (slab_ts o d p).t1 = fdivQ (p.x - 1 / 2 - o.x) d.x := rfl

lemma slab_t2_eq (o d p : Vec3) :
    (slab_ts o d p).t2 = fdivQ (p.x + 1 / 2 - o.x) d.x := rfl

lemma slab_t3_eq (o d p : Vec3) :
    (slab_ts o d p).t3 = fdivQ (p.y - 1 / 2 - o.y) d.y := rfl

lemma slab_t4_eq (o d p : Vec3) :
    (slab_ts o d p).t4 = fdivQ (p.y + 1 / 2 - o.y) d.y := rfl

lemma slab_t5_eq (o d p : Vec3) :
    (slab_ts o d p).t5 = fdivQ (p.z - 1 / 2 - o.z) d.z := rfl

lemma slab_t6_eq (o d p : Vec3) :
    (slab_ts o d p).t6 = fdivQ (p.z + 1 / 2 - o.z) d.z := rfl

lemma tentry_eq (o d p : Vec3) :
    tentry o d p =
      fmax (fmax (fmin (slab_ts o d p).t1 (slab_ts o d p).t2)
          (fmin (slab_ts o d p).t3 (slab_ts o d p).t4))
        (fmin (slab_ts o d p).t5 (slab_ts o d p).t6) := rfl

lemma texit_eq (o d p : Vec3) :
    texit o d p =
      fmin (fmin (fmax (slab_ts o d p).t1 (slab_ts o d p).t2)
          (fmax (slab_ts o d p).t3 (slab_ts o d p).t4))
        (fmax (slab_ts o d p).t5 (slab_ts o d p).t6) := rfl

/-- The two slab parameters of one axis are never both NaN: the box faces of a
unit cube are distinct, so at most one numerator vanishes. -/
lemma pair_not_both_nan {n1 n2 dd : ℚ} (h : n1 ≠ n2) :
    ¬(fdivQ n1 dd = .nan ∧ fdivQ n2 dd = .nan) := by
  rintro ⟨h1, h2⟩
  rw [fdivQ_nan_iff] at h1 h2
  exact h (h1.2.trans h2.2.symm)

lemma tentry_ne_nan (o d p : Vec3) : tentry o d p ≠ .nan := by
  rw [tentry_eq]
  intro h
  rw [fmax_eq_nan_iff, fmax_eq_nan_iff, fmin_eq_nan_iff] at h
  have hx : fdivQ (p.x - 1 / 2 - o.x) d.x = .nan ∧
      fdivQ (p.x + 1 / 2 - o.x) d.x = .nan := by
    rw [← slab_t1_eq, ← slab_t2_eq]
    exact h.1.1
  exact pair_not_both_nan (by intro hc; linarith [hc]) hx

lemma texit_ne_nan (o d p : Vec3) : texit o d p ≠ .nan := by
  rw [texit_eq]
  intro h
  rw [fmin_eq_nan_iff, fmin_eq_nan_iff, fmax_eq_nan_iff] at h
  have hx : fdivQ (p.x - 1 / 2 - o.x) d.x = .nan ∧
      fdivQ (p.x + 1 / 2 - o.x) d.x = .nan := by
    rw [← slab_t1_eq, ← slab_t2_eq]
    exact h.1.1
  exact pair_not_both_nan (by intro hc; linarith [hc]) hx

/-- On non-NaN values, a negated strict comparison is the reversed `≤`. -/
lemma not_flt_eq_fle {a b : FP} (ha : a ≠ .nan) (hb : b ≠ .nan) :
    (!(flt a b)) = fle b a := by
  cases a with
  | nan => exact absurd rfl ha
  | inf s =>
    cases b with
    | nan => exact absurd rfl hb
    | inf t => cases s <;> cases t <;> rfl
    | fin q => cases s <;> rfl
  | fin q =>
    cases b with
    | nan => exact absurd rfl hb
    | inf t => cases t <;> rfl
    | fin r =>
      show (!decide (q < r)) = decide (r ≤ q)
      rw [← decide_not, decide_eq_decide]
      exact not_lt

/-- Because `tmin`/`tmax` are never NaN, the negated `continue` conditions of
the loop agree with the spec's `t_entry ≤ t_exit ∧ t_exit ≥ 0` reading. -/
lemma condHit_eq_hit_spec (o d : Vec3) (e : Entity) :
    condHit o d e = hit_spec o d e := by
  unfold condHit hit_spec
  have h1 := texit_ne_nan o d e.pos
  have h2 := tentry_ne_nan o d e.pos
  rw [not_flt_eq_fle h1 (by simp), not_flt_eq_fle h1 h2,
    Bool.and_comm (fle (.fin 0) (texit o d e.pos)) (fle (tentry o d e.pos) (texit o d e.pos))]

/-- A block passing the selection window has a finite entry parameter
strictly between `0` and `5`. -/
lemma condHit_tentry_fin {o d : Vec3} {e : Entity} (h : condHit o d e = true) :
    ∃ t : ℚ, tentry o d e.pos = .fin t ∧ 0 < t ∧ t < 5 := by
  unfold condHit at h
  simp only [Bool.and_eq_true] at h
  obtain ⟨-, h3, h4⟩ := h
  cases hte : tentry o d e.pos with
  | nan => rw [hte] at h3; exact absurd h3 (by simp [flt])
  | inf s =>
    cases s
    · rw [hte] at h3; exact absurd h3 (by simp [flt])
    · rw [hte] at h4; exact absurd h4 (by simp [flt, max_distance])
  | fin t =>
    rw [hte] at h3 h4
    exact ⟨t, rfl, flt_fin_iff.1 h3, flt_fin_iff.1 h4⟩

lemma condHit_false_of_tentry_posinf {o d : Vec3} {e : Entity}
    (h : tentry o d e.pos = .inf true) : condHit o d e = false := by
  unfold condHit
  rw [h]
  simp [flt, max_distance]

lemma condHit_false_of_texit_neginf {o d : Vec3} {e : Entity}
    (h : texit o d e.pos = .inf false) : condHit o d e = false := by
  unfold condHit
  rw [h]
  simp [flt]

/-- A NaN in the six slab divisions arises only when a direction component is
zero and the origin lies exactly on a box face; the other parameter of that
axis is then an infinity that forces `tmin = +∞` or `tmax = -∞`. -/
lemma hasNaN_inf {o d p : Vec3} (h : (slab_ts o d p).hasNaN = true) :
    tentry o d p = .inf true ∨ texit o d p = .inf false := by
  unfold SlabTs.hasNaN at h
  simp only [Bool.or_eq_true, isNaN_iff] at h
  rcases h with ((((h | h) | h) | h) | h) | h
  · -- t1 = NaN: x-axis, low face
    obtain ⟨hd, hn⟩ := fdivQ_nan_iff.1 (slab_t1_eq o d p ▸ h)
    have h2 : (slab_ts o d p).t2 = .inf true := by
      rw [slab_t2_eq, hd, show p.x + 1 / 2 - o.x = 1 by linarith]
      exact fdivQ_zero_pos one_pos
    left
    rw [tentry_eq, h, h2, fmin_nan_left, fmax_posinf_left, fmax_posinf_left]
  · -- t2 = NaN: x-axis, high face
    obtain ⟨hd, hn⟩ := fdivQ_nan_iff.1 (slab_t2_eq o d p ▸ h)
    have h1 : (slab_ts o d p).t1 = .inf false := by
      rw [slab_t1_eq, hd]
      exact fdivQ_zero_neg (by linarith)
    right
    rw [texit_eq, h, h1, fmax_nan_right, fmin_neginf_left, fmin_neginf_left]
  · -- t3 = NaN: y-axis, low face
    obtain ⟨hd, hn⟩ := fdivQ_nan_iff.1 (slab_t3_eq o d p ▸ h)
    have h4 : (slab_ts o d p).t4 = .inf true := by
      rw [slab_t4_eq, hd, show p.y + 1 / 2 - o.y = 1 by linarith]
      exact fdivQ_zero_pos one_pos
    left
    rw [tentry_eq, h, h4, fmin_nan_left, fmax_posinf_right, fmax_posinf_left]
  · -- t4 = NaN: y-axis, high face
    obtain ⟨hd, hn⟩ := fdivQ_nan_iff.1 (slab_t4_eq o d p ▸ h)
    have h3 : (slab_ts o d p).t3 = .inf false := by
      rw [slab_t3_eq, hd]
      exact fdivQ_zero_neg (by linarith)
    right
    rw [texit_eq, h, h3, fmax_nan_right, fmin_neginf_right, fmin_neginf_left]
  · -- t5 = NaN: z-axis, low face
    obtain ⟨hd, hn⟩ := fdivQ_nan_iff.1 (slab_t5_eq o d p ▸ h)
    have h6 : (slab_ts o d p).t6 = .inf true := by
      rw [slab_t6_eq, hd, show p.z + 1 / 2 - o.z = 1 by linarith]
      exact fdivQ_zero_pos one_pos
    left
    rw [tentry_eq, h, h6, fmin_nan_left, fmax_posinf_right]
  · -- t6 = NaN: z-axis, high face
    obtain ⟨hd, hn⟩ := fdivQ_nan_iff.1 (slab_t6_eq o d p ▸ h)
    have h5 : (slab_ts o d p).t5 = .inf false := by
      rw [slab_t5_eq, hd]
      exact fdivQ_zero_neg (by linarith)
    right
    rw [texit_eq, h, h5, fmax_nan_right, fmin_neginf_right]

/-! Characterization of the nearest-hit fold. -/

lemma findClosestAux_cons (o d : Vec3) (e : Entity) (rest : List Entity)
    (cb : Option ℕ) (cd : FP) :
    findClosestAux o d (e :: rest) (cb, cd) =
      if flt (texit o d e.pos) (.fin 0) = true then findClosestAux o d rest (cb, cd)
      else if flt (texit o d e.pos) (tentry o d e.pos) = true then
        findClosestAux o d rest (cb, cd)
      else if (flt (.fin 0) (tentry o d e.pos) && flt (tentry o d e.pos) max_distance &&
          flt (tentry o d e.pos) cd) = true then
        findClosestAux o d rest (some e.id, tentry o d e.pos)
      else findClosestAux o d rest (cb, cd) := rfl

/-- Invariant of the loop of `highlight_hovered_block`, for an arbitrary
finite starting `closest_distance`: either no block beats the starting
distance and the accumulator is returned unchanged, or the result is the
first block attaining the strict minimum of the entry distances among blocks
that pass the hit conditions and beat the starting distance. -/
lemma findClosestAux_spec (o d : Vec3) (l : List Entity) :
    ∀ (cb : Option ℕ) (q : ℚ),
      (findClosestAux o d l (cb, .fin q) = (cb, .fin q) ∧
        ∀ b ∈ l, condHit o d b = true → flt (tentry o d b.pos) (.fin q) = false)
      ∨ (∃ l1 b l2, l = l1 ++ b :: l2 ∧ condHit o d b = true ∧
          flt (tentry o d b.pos) (.fin q) = true ∧
          findClosestAux o d l (cb, .fin q) = (some b.id, tentry o d b.pos) ∧
          (∀ b2 ∈ l1, condHit o d b2 = true → flt (tentry o d b2.pos) (.fin q) = true →
            flt (tentry o d b.pos) (tentry o d b2.pos) = true) ∧
          (∀ b2 ∈ l2, condHit o d b2 = true →
            flt (tentry o d b2.pos) (tentry o d b.pos) = false)) := by
  induction l with
  | nil =>
    intro cb q
    left
    exact ⟨rfl, by simp⟩
  | cons e rest ih =>
    intro cb q
    rw [findClosestAux_cons]
    by_cases hA : flt (texit o d e.pos) (.fin 0) = true
    · -- first `continue`: tmax < 0
      rw [if_pos hA]
      have hce : condHit o d e = false := by simp [condHit, hA]
      rcases ih cb q with ⟨heq, hnone⟩ | ⟨l1, b, l2, hsplit, hb, hbf, heq, hl1, hl2⟩
      · left
        refine ⟨heq, ?_⟩
        intro b hbmem hc
        rcases List.mem_cons.1 hbmem with rfl | h2
        · rw [hce] at hc; cases hc
        · exact hnone b h2 hc
      · right
        refine ⟨e :: l1, b, l2, by rw [hsplit]; rfl, hb, hbf, heq, ?_, hl2⟩
        intro b2 hb2 hc2 hf2
        rcases List.mem_cons.1 hb2 with rfl | h2
        · rw [hce] at hc2; cases hc2
        · exact hl1 b2 h2 hc2 hf2
    · rw [if_neg hA]
      by_cases hB : flt (texit o d e.pos) (tentry o d e.pos) = true
      · -- second `continue`: tmin > tmax
        rw [if_pos hB]
        have hce : condHit o d e = false := by simp [condHit, hB]
        rcases ih cb q with ⟨heq, hnone⟩ | ⟨l1, b, l2, hsplit, hb, hbf, heq, hl1, hl2⟩
        · left
          refine ⟨heq, ?_⟩
          intro b hbmem hc
          rcases List.mem_cons.1 hbmem with rfl | h2
          · rw [hce] at hc; cases hc
          · exact hnone b h2 hc
        · right
          refine ⟨e :: l1, b, l2, by rw [hsplit]; rfl, hb, hbf, heq, ?_, hl2⟩
          intro b2 hb2 hc2 hf2
          rcases List.mem_cons.1 hb2 with rfl | h2
          · rw [hce] at hc2; cases hc2
          · exact hl1 b2 h2 hc2 hf2
      · rw [if_neg hB]
        have hAf : flt (texit o d e.pos) (.fin 0) = false := by
          revert hA; cases flt (texit o d e.pos) (.fin 0) <;> simp
        have hBf : flt (texit o d e.pos) (tentry o d e.pos) = false := by
          revert hB; cases flt (texit o d e.pos) (tentry o d e.pos) <;> simp
        by_cases hG : (flt (.fin 0) (tentry o d e.pos) && flt (tentry o d e.pos) max_distance &&
            flt (tentry o d e.pos) (.fin q)) = true
        · -- update: e becomes the current closest block
          rw [if_pos hG]
          simp only [Bool.and_eq_true] at hG
          obtain ⟨⟨hC, hD⟩, hE⟩ := hG
          have hcond : condHit o d e = true := by
            simp [condHit, hAf, hBf, hC, hD]
          obtain ⟨t, ht, ht0, ht5⟩ := condHit_tentry_fin hcond
          rw [ht]
          rcases ih (some e.id) t with ⟨heq, hnone⟩ | ⟨l1, b, l2, hsplit, hb, hbf, heq, hl1, hl2⟩
          · right
            refine ⟨[], e, rest, rfl, hcond, hE, by rw [ht]; exact heq, by simp, ?_⟩
            intro b2 hb2 hc2
            rw [ht]
            exact hnone b2 hb2 hc2
          · right
            obtain ⟨tb, htb, htb0, htb5⟩ := condHit_tentry_fin hb
            have htbt : tb < t := by
              rw [htb] at hbf
              exact flt_fin_iff.1 hbf
            have htq : t < q := by
              rw [ht] at hE
              exact flt_fin_iff.1 hE
            refine ⟨e :: l1, b, l2, ?_, hb, ?_, heq, ?_, hl2⟩
            · rw [hsplit]; rfl
            · rw [htb]
              exact flt_fin_iff.2 (htbt.trans htq)
            · intro b2 hb2 hc2 hf2
              rcases List.mem_cons.1 hb2 with rfl | h2
              · rw [ht]
                exact hbf
              · by_cases hf3 : flt (tentry o d b2.pos) (.fin t) = true
                · exact hl1 b2 h2 hc2 hf3
                · obtain ⟨t2, ht2, ht20, ht25⟩ := condHit_tentry_fin hc2
                  rw [ht2] at hf3
                  have hf3f : flt (.fin t2) (.fin t) = false := by
                    revert hf3
                    cases flt (FP.fin t2) (FP.fin t) <;> simp
                  have hge : t ≤ t2 := flt_fin_false_iff.1 hf3f
                  rw [htb, ht2]
                  exact flt_fin_iff.2 (lt_of_lt_of_le htbt hge)
        · -- no update: e does not beat the current distance
          rw [if_neg hG]
          have hGf : (flt (.fin 0) (tentry o d e.pos) && flt (tentry o d e.pos) max_distance &&
              flt (tentry o d e.pos) (.fin q)) = false := by
            revert hG
            cases (flt (.fin 0) (tentry o d e.pos) && flt (tentry o d e.pos) max_distance &&
              flt (tentry o d e.pos) (.fin q)) <;> simp
          have hskip : condHit o d e = true → flt (tentry o d e.pos) (.fin q) = false := by
            intro hc
            have hCD : (flt (.fin 0) (tentry o d e.pos) &&
                flt (tentry o d e.pos) max_distance) = true := by
              simp only [condHit, hAf, hBf, Bool.not_false, Bool.true_and] at hc
              exact hc
            rw [hCD, Bool.true_and] at hGf
            exact hGf
          rcases ih cb q with ⟨heq, hnone⟩ | ⟨l1, b, l2, hsplit, hb, hbf, heq, hl1, hl2⟩
          · left
            refine ⟨heq, ?_⟩
            intro b hbmem hc
            rcases List.mem_cons.1 hbmem with rfl | h2
            · exact hskip hc
            · exact hnone b h2 hc
          · right
            refine ⟨e :: l1, b, l2, by rw [hsplit]; rfl, hb, hbf, heq, ?_, hl2⟩
            intro b2 hb2 hc2 hf2
            rcases List.mem_cons.1 hb2 with rfl | h2
            · rw [hskip hc2] at hf2; cases hf2
            · exact hl1 b2 h2 hc2 hf2

lemma five_lt_f32Max : (5 : ℚ) < f32Max := by norm_num [f32Max]

/-- Every block in the selection window beats the initial `f32::MAX` distance. -/
lemma condHit_flt_f32Max {o d : Vec3} {e : Entity} (h : condHit o d e = true) :
    flt (tentry o d e.pos) (.fin f32Max) = true := by
  obtain ⟨t, ht, ht0, ht5⟩ := condHit_tentry_fin h
  rw [ht]
  exact flt_fin_iff.2 (ht5.trans five_lt_f32Max)

/-- `findClosest` either selects nothing (exactly when no block passes the hit
conditions) or selects the first block attaining the minimum entry distance. -/
lemma findClosest_cases (o d : Vec3) (l : List Entity) :
    ((findClosest o d l).1 = none ∧ ∀ b ∈ l, condHit o d b = false)
    ∨ (∃ l1 b l2, l = l1 ++ b :: l2 ∧ condHit o d b = true ∧
        (findClosest o d l).1 = some b.id ∧
        (∀ b2 ∈ l1, condHit o d b2 = true →
          flt (tentry o d b.pos) (tentry o d b2.pos) = true) ∧
        (∀ b2 ∈ l2, condHit o d b2 = true →
          flt (tentry o d b2.pos) (tentry o d b.pos) = false)) := by
  rcases findClosestAux_spec o d l none f32Max with ⟨heq, hnone⟩ |
    ⟨l1, b, l2, hsplit, hb, hbf, heq, hl1, hl2⟩
  · left
    constructor
    · show (findClosestAux o d l (none, .fin f32Max)).1 = none
      rw [heq]
    · intro b hbmem
      cases hcb : condHit o d b with
      | false => rfl
      | true =>
        have h1 := hnone b hbmem hcb
        rw [condHit_flt_f32Max hcb] at h1
        cases h1
  · right
    refine ⟨l1, b, l2, hsplit, hb, ?_, ?_, hl2⟩
    · show (findClosestAux o d l (none, .fin f32Max)).1 = some b.id
      rw [heq]
    · intro b2 h2 hc2
      exact hl1 b2 h2 hc2 (condHit_flt_f32Max hc2)

/-! Early-return equations for `highlight_hovered_block`. -/

lemma run_noCamera (windows : List Window) (cameras : List Camera)
    (bm : BlockMaterials) (world : List Entity) (h : getSingle cameras = none) :
    highlight_hovered_block windows cameras bm world = clearPhase bm world := by
  simp only [highlight_hovered_block, h]

lemma run_noWindow (windows : List Window) (cameras : List Camera)
    (bm : BlockMaterials) (world : List Entity) (cam : Camera)
    (hc : getSingle cameras = some cam) (h : getSingle windows = none) :
    highlight_hovered_block windows cameras bm world = clearPhase bm world := by
  simp only [highlight_hovered_block, hc, h]

lemma run_noRay (windows : List Window) (cameras : List Camera)
    (bm : BlockMaterials) (world : List Entity) (cam : Camera) (win : Window)
    (hc : getSingle cameras = some cam) (hw : getSingle windows = some win)
    (hr : cam.viewport_to_world (win.width / 2, win.height / 2) = none) :
    highlight_hovered_block windows cameras bm world = clearPhase bm world := by
  simp only [highlight_hovered_block, hc, hw, hr]

lemma run_ray (windows : List Window) (cameras : List Camera)
    (bm : BlockMaterials) (world : List Entity) (cam : Camera) (win : Window) (ray : Ray)
    (hc : getSingle cameras = some cam) (hw : getSingle windows = some win)
    (hr : cam.viewport_to_world (win.width / 2, win.height / 2) = some ray) :
    highlight_hovered_block windows cameras bm world =
      match (findClosest ray.origin ray.direction
          ((clearPhase bm world).filter (fun e => e.block))).1 with
      | none => clearPhase bm world
      | some eid => applyPhase bm eid (clearPhase bm world) := by
  simp only [highlight_hovered_block, hc, hw, hr]

/-! Pointwise facts about the clear and apply phases. -/

lemma clearEnt_highlight (bm : BlockMaterials) (e : Entity) :
    (clearEnt bm e).highlight = false := by
  cases h : e.highlight with
  | false => simp [clearEnt, h]
  | true => simp [clearEnt, h]

lemma clearEnt_unmarked (bm : BlockMaterials) {e : Entity} (h : e.highlight = false) :
    clearEnt bm e = e := by
  simp [clearEnt, h]

lemma clearEnt_id (bm : BlockMaterials) (e : Entity) : (clearEnt bm e).id = e.id := by
  cases h : e.highlight <;> simp [clearEnt, h]

lemma clearEnt_block (bm : BlockMaterials) (e : Entity) :
    (clearEnt bm e).block = e.block := by
  cases h : e.highlight <;> simp [clearEnt, h]

lemma clearEnt_pos (bm : BlockMaterials) (e : Entity) : (clearEnt bm e).pos = e.pos := by
  cases h : e.highlight <;> simp [clearEnt, h]

lemma applyEnt_id (bm : BlockMaterials) (i : ℕ) (e : Entity) :
    (applyEnt bm i e).id = e.id := by
  by_cases h : e.id = i <;> simp [applyEnt, h]

lemma applyEnt_block (bm : BlockMaterials) (i : ℕ) (e : Entity) :
    (applyEnt bm i e).block = e.block := by
  by_cases h : e.id = i <;> simp [applyEnt, h]

lemma applyEnt_pos (bm : BlockMaterials) (i : ℕ) (e : Entity) :
    (applyEnt bm i e).pos = e.pos := by
  by_cases h : e.id = i <;> simp [applyEnt, h]

lemma clearEnt_clearEnt (bm : BlockMaterials) (e : Entity) :
    clearEnt bm (clearEnt bm e) = clearEnt bm e :=
  clearEnt_unmarked bm (clearEnt_highlight bm e)

lemma clearPhase_clearPhase (bm : BlockMaterials) (world : List Entity) :
    clearPhase bm (clearPhase bm world) = clearPhase bm world := by
  unfold clearPhase
  rw [List.map_map]
  exact List.map_congr_left (fun e _ => clearEnt_clearEnt bm e)

/-- Clear-then-apply after an apply collapses to the single apply, on an
unmarked entity. -/
lemma applyEnt_clearEnt_applyEnt (bm : BlockMaterials) (i : ℕ) {e : Entity}
    (h : e.highlight = false) :
    applyEnt bm i (clearEnt bm (applyEnt bm i e)) = applyEnt bm i e := by
  by_cases hid : e.id = i
  · by_cases hbl : e.block = true <;>
      simp [applyEnt, clearEnt, hid, hbl]
  · have h1 : applyEnt bm i e = e := by simp [applyEnt, hid]
    rw [h1, clearEnt_unmarked bm h, h1]

/-- The nearest-hit search reads only ids and positions of the blocks. -/
lemma findClosestAux_congr (o d : Vec3) :
    ∀ (l1 l2 : List Entity) (acc : Option ℕ × FP),
      l1.map (fun e => (e.id, e.pos)) = l2.map (fun e => (e.id, e.pos)) →
      findClosestAux o d l1 acc = findClosestAux o d l2 acc := by
  intro l1
  induction l1 with
  | nil =>
    intro l2 acc h
    cases l2 with
    | nil => rfl
    | cons e2 rest2 => simp at h
  | cons e rest ih =>
    intro l2 acc h
    cases l2 with
    | nil => simp at h
    | cons e2 rest2 =>
      simp only [List.map_cons, List.cons.injEq, Prod.mk.injEq] at h
      obtain ⟨⟨hid, hpos⟩, hrest⟩ := h
      obtain ⟨cb, cd⟩ := acc
      rw [findClosestAux_cons, findClosestAux_cons, hid, hpos]
      simp only [ih rest2 _ hrest]

lemma findClosest_congr (o d : Vec3) (l1 l2 : List Entity)
    (h : l1.map (fun e => (e.id, e.pos)) = l2.map (fun e => (e.id, e.pos))) :
    findClosest o d l1 = findClosest o d l2 :=
  findClosestAux_congr o d l1 l2 _ h

/-- A map that preserves ids, the `Block` tag, and positions does not change
the id/position view of the blocks query. -/
lemma filter_map_proj (g : Entity → Entity) (hid : ∀ e, (g e).id = e.id)
    (hblock : ∀ e, (g e).block = e.block) (hpos : ∀ e, (g e).pos = e.pos) :
    ∀ l : List Entity,
      ((l.map g).filter (fun e => e.block)).map (fun e => (e.id, e.pos)) =
        (l.filter (fun e => e.block)).map (fun e => (e.id, e.pos)) := by
  intro l
  induction l with
  | nil => rfl
  | cons e rest ih =>
    simp only [List.map_cons, List.filter_cons, hblock e]
    by_cases hb : e.block = true
    · simp only [hb, if_true, List.map_cons, ih, hid, hpos]
    · simp only [if_neg hb, ih]

/-- With pairwise distinct entity ids, at most one list entry matches a
given id. -/
lemma countP_id_le_one {l : List Entity} (h : (l.map (fun e => e.id)).Nodup) (i : ℕ) :
    l.countP (fun e => e.id == i) ≤ 1 := by
  induction l with
  | nil => simp
  | cons e rest ih =>
    simp only [List.map_cons, List.nodup_cons] at h
    obtain ⟨hnotin, hrest⟩ := h
    rw [List.countP_cons]
    by_cases he : e.id = i
    · have hz : rest.countP (fun e2 => e2.id == i) = 0 := by
        rw [List.countP_eq_zero]
        intro a ha hai
        rw [beq_iff_eq] at hai
        exact hnotin (List.mem_map.2 ⟨a, ha, by rw [hai, he]⟩)
      simp [hz, he]
    · have hf : (e.id == i) = false := by simp [he]
      simp only [hf, if_false, Nat.add_zero]
      exact ih hrest

/-- Every run is the clear phase alone, or the clear phase followed by the
apply phase on the selected entity id. -/
lemma run_shape (windows : List Window) (cameras : List Camera)
    (bm : BlockMaterials) (world : List Entity) :
    highlight_hovered_block windows cameras bm world = clearPhase bm world ∨
    ∃ (ray : Ray) (eid : ℕ),
      (findClosest ray.origin ray.direction
        ((clearPhase bm world).filter (fun e => e.block))).1 = some eid ∧
      highlight_hovered_block windows cameras bm world =
        applyPhase bm eid (clearPhase bm world) := by
  cases hc : getSingle cameras with
  | none => exact Or.inl (run_noCamera _ _ _ _ hc)
  | some cam =>
    cases hw : getSingle windows with
    | none => exact Or.inl (run_noWindow _ _ _ _ _ hc hw)
    | some win =>
      cases hr : cam.viewport_to_world (win.width / 2, win.height / 2) with
      | none => exact Or.inl (run_noRay _ _ _ _ _ _ hc hw hr)
      | some ray =>
        have heq := run_ray windows cameras bm world cam win ray hc hw hr
        cases hf : (findClosest ray.origin ray.direction
            ((clearPhase bm world).filter (fun e => e.block))).1 with
        | none => left; rw [heq, hf]
        | some eid => right; exact ⟨ray, eid, hf, by rw [heq, hf]⟩

lemma clearPhase_highlight_count (bm : BlockMaterials) (world : List Entity) :
    (clearPhase bm world).countP (fun e => e.highlight) = 0 := by
  rw [List.countP_eq_zero]
  intro a ha
  obtain ⟨e, -, rfl⟩ := List.mem_map.1 ha
  simp [clearEnt_highlight]

lemma clearPhase_map_id (bm : BlockMaterials) (world : List Entity) :
    (clearPhase bm world).map (fun e => e.id) = world.map (fun e => e.id) := by
  unfold clearPhase
  rw [List.map_map]
  exact List.map_congr_left (fun e _ => clearEnt_id bm e)

/-- Claim C1: for every prior state — including states where several entities
wrongly carry the mark — after a single run of the Hover Highlighter
completes, at most one entity carries the `BlockHighlight` mark.  (The
hypothesis is Bevy's guarantee that entity ids are pairwise distinct.) -/
theorem at_most_one_highlight (windows : List Window) (cameras : List Camera)
    (bm : BlockMaterials) (world : List Entity)
    (h : (world.map (fun e => e.id)).Nodup) :
    (highlight_hovered_block windows cameras bm world).countP
      (fun e => e.highlight) ≤ 1 := by
  rcases run_shape windows cameras bm world with heq | ⟨ray, eid, hf, heq⟩
  · rw [heq, clearPhase_highlight_count]
    exact Nat.zero_le 1
  · rw [heq]
    unfold applyPhase
    rw [List.countP_map]
    have hcong : (clearPhase bm world).countP
        ((fun e => e.highlight) ∘ applyEnt bm eid) =
        (clearPhase bm world).countP (fun e => e.id == eid) := by
      apply List.countP_congr
      intro a ha
      obtain ⟨e, -, rfl⟩ := List.mem_map.1 ha
      have hh := clearEnt_highlight bm e
      by_cases hi : (clearEnt bm e).id = eid <;>
        simp [applyEnt, hi, hh]
    rw [hcong]
    apply countP_id_le_one
    rw [clearPhase_map_id]
    exact h

/-- Claim C1 witness: a state with two entities wrongly carrying the mark, a
camera and window present, and a block under the crosshair. -/
theorem at_most_one_highlight_witness :
    (([⟨0, true, ⟨0, 10, 0⟩, 1, true⟩, ⟨1, true, ⟨0, 0, 0⟩, 0, true⟩] :
        List Entity).map (fun e => e.id)).Nodup ∧
    (highlight_hovered_block [⟨800, 600⟩]
      [⟨fun _ => some ⟨⟨0, 0, -3⟩, ⟨0, 0, 1⟩⟩⟩] ⟨0, 1⟩
      [⟨0, true, ⟨0, 10, 0⟩, 1, true⟩, ⟨1, true, ⟨0, 0, 0⟩, 0, true⟩]).countP
      (fun e => e.highlight) ≤ 1 :=
  ⟨by decide, at_most_one_highlight _ _ _ _ (by decide)⟩

lemma zip_map_self {α : Type} (g : α → α) (l : List α) :
    l.zip (l.map g) = l.map (fun a => (a, g a)) := by
  have h := List.zip_map' (id : α → α) g l
  rwa [List.map_id] at h

/-- Claim C4 counterexample: with no camera in the scene and a stale
`BlockHighlight` on a live block holding the highlighted material, the run
does change a block's material reference (it resets it to normal), so the
claim "leaves all block material references unchanged" fails as stated. -/
theorem no_camera_material_changed_cex :
    getSingle ([] : List Camera) = none ∧
    ¬((highlight_hovered_block [] [] ⟨0, 1⟩
        [⟨0, true, ⟨0, 0, 0⟩, 1, true⟩]).map (fun e => e.material) =
      ([⟨0, true, ⟨0, 0, 0⟩, 1, true⟩] : List Entity).map (fun e => e.material)) := by
  exact ⟨rfl, by decide⟩

/-- Claim C4 (amended): when the camera or window query fails, the run is
exactly the clear phase — every `BlockHighlight` is removed, each marked live
Block's material is reset to normal, entities that were not marked are left
completely unchanged, and no new highlight is applied that frame. -/
theorem no_camera_clear_only (windows : List Window) (cameras : List Camera)
    (bm : BlockMaterials) (world : List Entity)
    (h : getSingle cameras = none ∨ getSingle windows = none) :
    highlight_hovered_block windows cameras bm world = clearPhase bm world ∧
    (∀ e ∈ highlight_hovered_block windows cameras bm world, e.highlight = false) ∧
    (∀ p ∈ world.zip (highlight_hovered_block windows cameras bm world),
      p.1.highlight = false → p.2 = p.1) ∧
    (∀ p ∈ world.zip (highlight_hovered_block windows cameras bm world),
      p.1.highlight = true → p.1.block = true → p.2.material = bm.normal) := by
  have heq : highlight_hovered_block windows cameras bm world = clearPhase bm world := by
    rcases h with hc | hw
    · exact run_noCamera _ _ _ _ hc
    · cases hc : getSingle cameras with
      | none => exact run_noCamera _ _ _ _ hc
      | some cam => exact run_noWindow _ _ _ _ _ hc hw
  refine ⟨heq, ?_, ?_, ?_⟩
  · intro e he
    rw [heq] at he
    obtain ⟨e0, -, rfl⟩ := List.mem_map.1 he
    exact clearEnt_highlight bm e0
  · intro p hp h1
    rw [heq] at hp
    unfold clearPhase at hp
    rw [zip_map_self] at hp
    obtain ⟨e0, -, rfl⟩ := List.mem_map.1 hp
    exact clearEnt_unmarked bm h1
  · intro p hp h1 h2
    rw [heq] at hp
    unfold clearPhase at hp
    rw [zip_map_self] at hp
    obtain ⟨e0, -, rfl⟩ := List.mem_map.1 hp
    have h1' : e0.highlight = true := h1
    have h2' : e0.block = true := h2
    simp [clearEnt, h1', h2']

/-- Claim C4 witness for the amended statement: no camera, one stale mark. -/
theorem no_camera_clear_only_witness :
    (getSingle ([] : List Camera) = none ∨ getSingle ([⟨800, 600⟩] : List Window) = none) ∧
    (highlight_hovered_block [⟨800, 600⟩] [] ⟨0, 1⟩ [⟨0, true, ⟨0, 0, 0⟩, 1, true⟩] =
      clearPhase ⟨0, 1⟩ [⟨0, true, ⟨0, 0, 0⟩, 1, true⟩] ∧
    (∀ e ∈ highlight_hovered_block [⟨800, 600⟩] [] ⟨0, 1⟩
        [⟨0, true, ⟨0, 0, 0⟩, 1, true⟩], e.highlight = false) ∧
    (∀ p ∈ ([⟨0, true, ⟨0, 0, 0⟩, 1, true⟩] : List Entity).zip
        (highlight_hovered_block [⟨800, 600⟩] [] ⟨0, 1⟩
          [⟨0, true, ⟨0, 0, 0⟩, 1, true⟩]),
      p.1.highlight = false → p.2 = p.1) ∧
    (∀ p ∈ ([⟨0, true, ⟨0, 0, 0⟩, 1, true⟩] : List Entity).zip
        (highlight_hovered_block [⟨800, 600⟩] [] ⟨0, 1⟩
          [⟨0, true, ⟨0, 0, 0⟩, 1, true⟩]),
      p.1.highlight = true → p.1.block = true → p.2.material = (⟨0, 1⟩ : BlockMaterials).normal)) :=
  ⟨Or.inl rfl, no_camera_clear_only _ _ _ _ (Or.inl rfl)⟩

lemma clearPhase_mem_highlight (bm : BlockMaterials) {world : List Entity}
    {e : Entity} (he : e ∈ clearPhase bm world) : e.highlight = false := by
  obtain ⟨e0, -, rfl⟩ := List.mem_map.1 he
  exact clearEnt_highlight bm e0

/-- Claim C7: running the Highlighter twice with identical camera, window and
block state yields the same state as running it once — the same single
highlighted entity (or none), with no extra mark or material accumulation. -/
theorem highlighter_idempotent (windows : List Window) (cameras : List Camera)
    (bm : BlockMaterials) (world : List Entity) :
    highlight_hovered_block windows cameras bm
        (highlight_hovered_block windows cameras bm world) =
      highlight_hovered_block windows cameras bm world := by
  cases hc : getSingle cameras with
  | none =>
    rw [run_noCamera windows cameras bm world hc,
      run_noCamera windows cameras bm (clearPhase bm world) hc,
      clearPhase_clearPhase]
  | some cam =>
    cases hw : getSingle windows with
    | none =>
      rw [run_noWindow windows cameras bm world cam hc hw,
        run_noWindow windows cameras bm (clearPhase bm world) cam hc hw,
        clearPhase_clearPhase]
    | some win =>
      cases hr : cam.viewport_to_world (win.width / 2, win.height / 2) with
      | none =>
        rw [run_noRay windows cameras bm world cam win hc hw hr,
          run_noRay windows cameras bm (clearPhase bm world) cam win hc hw hr,
          clearPhase_clearPhase]
      | some ray =>
        have h1 := run_ray windows cameras bm world cam win ray hc hw hr
        cases hf : (findClosest ray.origin ray.direction
            ((clearPhase bm world).filter (fun e => e.block))).1 with
        | none =>
          rw [h1, hf]
          rw [run_ray windows cameras bm (clearPhase bm world) cam win ray hc hw hr,
            clearPhase_clearPhase, hf]
        | some eid =>
          rw [h1, hf]
          have hproj : ((clearPhase bm (applyPhase bm eid
              (clearPhase bm world))).filter (fun e => e.block)).map
                (fun e => (e.id, e.pos)) =
              ((clearPhase bm world).filter (fun e => e.block)).map
                (fun e => (e.id, e.pos)) := by
            have hm : clearPhase bm (applyPhase bm eid (clearPhase bm world)) =
                (clearPhase bm world).map
                  (fun e => clearEnt bm (applyEnt bm eid e)) := by
              unfold clearPhase applyPhase
              rw [List.map_map]
              rfl
            rw [hm]
            exact filter_map_proj (fun e => clearEnt bm (applyEnt bm eid e))
              (fun e => (clearEnt_id bm _).trans (applyEnt_id bm eid e))
              (fun e => (clearEnt_block bm _).trans (applyEnt_block bm eid e))
              (fun e => (clearEnt_pos bm _).trans (applyEnt_pos bm eid e))
              (clearPhase bm world)
          have hfind : findClosest ray.origin ray.direction
              ((clearPhase bm (applyPhase bm eid (clearPhase bm world))).filter
                (fun e => e.block)) =
              findClosest ray.origin ray.direction
                ((clearPhase bm world).filter (fun e => e.block)) :=
            findClosest_congr _ _ _ _ hproj
          rw [run_ray windows cameras bm (applyPhase bm eid (clearPhase bm world))
            cam win ray hc hw hr, hfind, hf]
          show applyPhase bm eid (clearPhase bm (applyPhase bm eid
            (clearPhase bm world))) = applyPhase bm eid (clearPhase bm world)
          unfold clearPhase applyPhase
          rw [List.map_map, List.map_map, List.map_map, List.map_map]
          apply List.map_congr_left
          intro e he
          show applyEnt bm eid (clearEnt bm (applyEnt bm eid (clearEnt bm e))) =
            applyEnt bm eid (clearEnt bm e)
          exact applyEnt_clearEnt_applyEnt bm eid (clearEnt_highlight bm e)

lemma findClosest_some_mem {o d : Vec3} {l : List Entity} {i : ℕ}
    (h : (findClosest o d l).1 = some i) :
    ∃ b ∈ l, b.id = i ∧ condHit o d b = true := by
  rcases findClosest_cases o d l with ⟨hn, -⟩ | ⟨l1, b, l2, hsplit, hb, hs, -, -⟩
  · rw [h] at hn; cases hn
  · rw [h] at hs
    refine ⟨b, by rw [hsplit]; simp, ?_, hb⟩
    injection hs with h2
    exact h2.symm

/-- With distinct ids, the entity whose id was selected by the nearest-hit
search over the blocks query is a block. -/
lemma selected_is_block {o d : Vec3} {l : List Entity} {i : ℕ}
    (hN : (l.map (fun e => e.id)).Nodup)
    (hf : (findClosest o d (l.filter (fun e => e.block))).1 = some i) :
    ∀ e1 ∈ l, e1.id = i → e1.block = true := by
  obtain ⟨b, hbmem, hbid, -⟩ := findClosest_some_mem hf
  have hbl : b ∈ l := List.mem_of_mem_filter hbmem
  have hbb : b.block = true := (List.mem_filter.1 hbmem).2
  intro e1 he1 hid
  have heq := List.inj_on_of_nodup_map hN he1 hbl (by rw [hid, hbid])
  rw [heq]
  exact hbb

/-- Claim C10: after every completed run, mark and material agree — a marked
entity holds the highlighted material, and every live Block that was marked
before the run and ends the run unmarked has its material reset to normal. -/
theorem mark_material_agreement (windows : List Window) (cameras : List Camera)
    (bm : BlockMaterials) (world : List Entity)
    (h : (world.map (fun e => e.id)).Nodup) :
    (∀ e ∈ highlight_hovered_block windows cameras bm world,
      e.highlight = true → e.material = bm.highlighted) ∧
    (∀ p ∈ world.zip (highlight_hovered_block windows cameras bm world),
      p.1.highlight = true → p.1.block = true → p.2.highlight = false →
        p.2.material = bm.normal) := by
  rcases run_shape windows cameras bm world with heq | ⟨ray, eid, hf, heq⟩
  · constructor
    · intro e he hmark
      rw [heq] at he
      rw [clearPhase_mem_highlight bm he] at hmark
      cases hmark
    · intro p hp h1 h2 h3
      rw [heq] at hp
      unfold clearPhase at hp
      rw [zip_map_self] at hp
      obtain ⟨e0, -, rfl⟩ := List.mem_map.1 hp
      have h1' : e0.highlight = true := h1
      have h2' : e0.block = true := h2
      simp [clearEnt, h1', h2']
  · have hN1 : ((clearPhase bm world).map (fun e => e.id)).Nodup := by
      rw [clearPhase_map_id]; exact h
    constructor
    · intro e he hmark
      rw [heq] at he
      obtain ⟨e1, he1, rfl⟩ := List.mem_map.1 he
      by_cases hi : e1.id = eid
      · have hbl : e1.block = true :=
          selected_is_block hN1 hf e1 he1 hi
        simp [applyEnt, hi, hbl]
      · rw [show applyEnt bm eid e1 = e1 by simp [applyEnt, hi]] at hmark ⊢
        rw [clearPhase_mem_highlight bm he1] at hmark
        cases hmark
    · intro p hp h1 h2 h3
      rw [heq] at hp
      unfold applyPhase clearPhase at hp
      rw [List.map_map, zip_map_self] at hp
      obtain ⟨e0, -, rfl⟩ := List.mem_map.1 hp
      have h1' : e0.highlight = true := h1
      have h2' : e0.block = true := h2
      have h3' : (applyEnt bm eid (clearEnt bm e0)).highlight = false := h3
      by_cases hi : (clearEnt bm e0).id = eid
      · rw [show (applyEnt bm eid (clearEnt bm e0)).highlight = true by
          simp [applyEnt, hi]] at h3'
        cases h3'
      · show (applyEnt bm eid (clearEnt bm e0)).material = bm.normal
        rw [show applyEnt bm eid (clearEnt bm e0) = clearEnt bm e0 by
          simp [applyEnt, hi]]
        simp [clearEnt, h1', h2']

/-- Claim C10 witness: one stale marked block behind the camera, one block
under the crosshair that becomes the marked highlighted entity. -/
theorem mark_material_agreement_witness :
    (([⟨0, true, ⟨0, 10, 0⟩, 1, true⟩, ⟨1, true, ⟨0, 0, 0⟩, 0, false⟩] :
        List Entity).map (fun e => e.id)).Nodup ∧
    ((∀ e ∈ highlight_hovered_block [⟨800, 600⟩]
        [⟨fun _ => some ⟨⟨0, 0, -3⟩, ⟨0, 0, 1⟩⟩⟩] ⟨0, 1⟩
        [⟨0, true, ⟨0, 10, 0⟩, 1, true⟩, ⟨1, true, ⟨0, 0, 0⟩, 0, false⟩],
      e.highlight = true → e.material = (⟨0, 1⟩ : BlockMaterials).highlighted) ∧
    (∀ p ∈ ([⟨0, true, ⟨0, 10, 0⟩, 1, true⟩, ⟨1, true, ⟨0, 0, 0⟩, 0, false⟩] :
        List Entity).zip (highlight_hovered_block [⟨800, 600⟩]
          [⟨fun _ => some ⟨⟨0, 0, -3⟩, ⟨0, 0, 1⟩⟩⟩] ⟨0, 1⟩
          [⟨0, true, ⟨0, 10, 0⟩, 1, true⟩, ⟨1, true, ⟨0, 0, 0⟩, 0, false⟩]),
      p.1.highlight = true → p.1.block = true → p.2.highlight = false →
        p.2.material = (⟨0, 1⟩ : BlockMaterials).normal)) :=
  ⟨by decide, mark_material_agreement _ _ _ _ (by decide)⟩

lemma fle_of_flt {a b : FP} (h : flt a b = true) : fle a b = true := by
  cases a with
  | nan => rw [show flt FP.nan b = false by cases b <;> rfl] at h; cases h
  | inf s =>
    cases b with
    | nan => cases h
    | inf t => cases s <;> cases t <;> simp_all [flt, fle]
    | fin q => cases s <;> simp_all [flt, fle]
  | fin q =>
    cases b with
    | nan => cases h
    | inf t => cases t <;> simp_all [flt, fle]
    | fin r =>
      rw [fle_fin_iff]
      exact (flt_fin_iff.1 h).le

lemma fle_refl_of_ne_nan {a : FP} (h : a ≠ .nan) : fle a a = true := by
  cases a with
  | nan => exact absurd rfl h
  | inf s => cases s <;> rfl
  | fin q => exact fle_fin_iff.2 le_rfl

/-- Claim C2: with camera, window and unprojected ray resolved, the
Highlighter computes per-axis slab distances combined as
`t_entry = max` of the per-axis mins and `t_exit = min` of the per-axis
maxes (this is `rayAABB`), treats a block as hit iff
`t_entry ≤ t_exit ∧ t_exit ≥ 0`, and highlights exactly the hit block with
the smallest `t_entry` among those with `0 < t_entry < max_distance`; if no
block qualifies, no block is highlighted. -/
theorem highlighter_selects_nearest_hit (windows : List Window)
    (cameras : List Camera) (bm : BlockMaterials) (world : List Entity)
    (cam : Camera) (win : Window) (ray : Ray)
    (hc : getSingle cameras = some cam) (hw : getSingle windows = some win)
    (hr : cam.viewport_to_world (win.width / 2, win.height / 2) = some ray) :
    (∀ e : Entity, condHit ray.origin ray.direction e =
      hit_spec ray.origin ray.direction e) ∧
    ((findClosest ray.origin ray.direction
        ((clearPhase bm world).filter (fun e => e.block))).1 = none ↔
      ∀ b ∈ (clearPhase bm world).filter (fun e => e.block),
        condHit ray.origin ray.direction b = false) ∧
    ((findClosest ray.origin ray.direction
        ((clearPhase bm world).filter (fun e => e.block))).1 = none →
      highlight_hovered_block windows cameras bm world = clearPhase bm world ∧
      ∀ e ∈ highlight_hovered_block windows cameras bm world,
        e.highlight = false) ∧
    (∀ eid, (findClosest ray.origin ray.direction
        ((clearPhase bm world).filter (fun e => e.block))).1 = some eid →
      highlight_hovered_block windows cameras bm world =
        applyPhase bm eid (clearPhase bm world) ∧
      ∃ b ∈ (clearPhase bm world).filter (fun e => e.block), b.id = eid ∧
        condHit ray.origin ray.direction b = true ∧
        ∀ b2 ∈ (clearPhase bm world).filter (fun e => e.block),
          condHit ray.origin ray.direction b2 = true →
            fle (tentry ray.origin ray.direction b.pos)
              (tentry ray.origin ray.direction b2.pos) = true) := by
  have hrun := run_ray windows cameras bm world cam win ray hc hw hr
  refine ⟨condHit_eq_hit_spec ray.origin ray.direction, ?_, ?_, ?_⟩
  · constructor
    · intro hn
      rcases findClosest_cases ray.origin ray.direction
          ((clearPhase bm world).filter (fun e => e.block)) with ⟨-, hall⟩ |
        ⟨l1, b, l2, hsplit, hb, hs, -, -⟩
      · exact hall
      · rw [hn] at hs; cases hs
    · intro hall
      rcases findClosest_cases ray.origin ray.direction
          ((clearPhase bm world).filter (fun e => e.block)) with ⟨hn, -⟩ |
        ⟨l1, b, l2, hsplit, hb, hs, -, -⟩
      · exact hn
      · have hbmem : b ∈ (clearPhase bm world).filter (fun e => e.block) := by
          rw [hsplit]; simp
        rw [hall b hbmem] at hb
        cases hb
  · intro hn
    rw [hrun, hn]
    exact ⟨rfl, fun e he => clearPhase_mem_highlight bm he⟩
  · intro eid hf
    rw [hrun, hf]
    refine ⟨rfl, ?_⟩
    rcases findClosest_cases ray.origin ray.direction
        ((clearPhase bm world).filter (fun e => e.block)) with ⟨hn, -⟩ |
      ⟨l1, b, l2, hsplit, hb, hs, hl1, hl2⟩
    · rw [hf] at hn; cases hn
    · have hbid : b.id = eid := by
        rw [hf] at hs
        exact (Option.some_injective _ hs).symm
      refine ⟨b, by rw [hsplit]; simp, hbid, hb, ?_⟩
      intro b2 hb2 hc2
      rw [hsplit] at hb2
      rcases List.mem_append.1 hb2 with h2 | h2
      · exact fle_of_flt (hl1 b2 h2 hc2)
      · rcases List.mem_cons.1 h2 with rfl | h2
        · exact fle_refl_of_ne_nan (tentry_ne_nan _ _ _)
        · exact (flt_false_iff_fle (tentry_ne_nan _ _ _)
            (tentry_ne_nan _ _ _)).1 (hl2 b2 h2 hc2)

/-- Claim C2 witness: a single block straight ahead at distance `2.5`. -/
theorem highlighter_selects_nearest_hit_witness :
    getSingle [demoCam] = some demoCam ∧
    getSingle [demoWin] = some demoWin ∧
    demoCam.viewport_to_world (demoWin.width / 2, demoWin.height / 2) =
      some demoRay ∧
    ((∀ e : Entity, condHit demoRay.origin demoRay.direction e =
      hit_spec demoRay.origin demoRay.direction e) ∧
    ((findClosest demoRay.origin demoRay.direction
        ((clearPhase demoBM demoWorld).filter (fun e => e.block))).1 = none ↔
      ∀ b ∈ (clearPhase demoBM demoWorld).filter (fun e => e.block),
        condHit demoRay.origin demoRay.direction b = false) ∧
    ((findClosest demoRay.origin demoRay.direction
        ((clearPhase demoBM demoWorld).filter (fun e => e.block))).1 = none →
      highlight_hovered_block [demoWin] [demoCam] demoBM demoWorld =
        clearPhase demoBM demoWorld ∧
      ∀ e ∈ highlight_hovered_block [demoWin] [demoCam] demoBM demoWorld,
        e.highlight = false) ∧
    (∀ eid, (findClosest demoRay.origin demoRay.direction
        ((clearPhase demoBM demoWorld).filter (fun e => e.block))).1 = some eid →
      highlight_hovered_block [demoWin] [demoCam] demoBM demoWorld =
        applyPhase demoBM eid (clearPhase demoBM demoWorld) ∧
      ∃ b ∈ (clearPhase demoBM demoWorld).filter (fun e => e.block), b.id = eid ∧
        condHit demoRay.origin demoRay.direction b = true ∧
        ∀ b2 ∈ (clearPhase demoBM demoWorld).filter (fun e => e.block),
          condHit demoRay.origin demoRay.direction b2 = true →
            fle (tentry demoRay.origin demoRay.direction b.pos)
              (tentry demoRay.origin demoRay.direction b2.pos) = true)) :=
  ⟨rfl, rfl, rfl,
    highlighter_selects_nearest_hit [demoWin] [demoCam] demoBM demoWorld
      demoCam demoWin demoRay rfl rfl rfl⟩

/-- If the same list splits at two marked elements and the first marked
element is neither the second one nor before it, the second split is the
shorter prefix. -/
lemma split_length_lt {α : Type} {l1 l2 l1' l2' : List α} {b b' : α}
    (h : l1 ++ b :: l2 = l1' ++ b' :: l2') (hb1 : b ∉ l1') (hbb : b ≠ b') :
    l1'.length < l1.length := by
  rcases Nat.lt_trichotomy l1.length l1'.length with hlt | heq | hgt
  · exfalso
    have e1 : (l1 ++ b :: l2)[l1.length]? = some b := by
      rw [List.getElem?_append_right (le_refl l1.length)]
      simp
    rw [h, List.getElem?_append_left hlt] at e1
    obtain ⟨hbound, hval⟩ := List.getElem?_eq_some_iff.1 e1
    exact hb1 (hval ▸ List.getElem_mem hbound)
  · exfalso
    obtain ⟨-, h2⟩ := List.append_inj h heq
    exact hbb (by injection h2)
  · exact hgt

/-- Claim C9: when two or more blocks are hit at the same smallest `t_entry`,
exactly one is selected and highlighted, deterministically for a fixed
iteration order: the strict `tmin < closest_distance` comparison keeps the
first tying block encountered.  Hypotheses: `b` passes the hit test, no block
is strictly nearer, and every block before `b` in iteration order that passes
the hit test is strictly farther (so `b` is the first block attaining the
minimum). -/
theorem tie_break_keeps_first (o d : Vec3) (blocks l1 : List Entity) (b : Entity)
    (l2 : List Entity) (hsplit : blocks = l1 ++ b :: l2)
    (hcond : condHit o d b = true)
    (hmin : ∀ b2 ∈ blocks, condHit o d b2 = true →
      flt (tentry o d b2.pos) (tentry o d b.pos) = false)
    (hfirst : ∀ b2 ∈ l1, condHit o d b2 = true →
      flt (tentry o d b.pos) (tentry o d b2.pos) = true) :
    (findClosest o d blocks).1 = some b.id := by
  rcases findClosest_cases o d blocks with ⟨-, hall⟩ |
    ⟨l1', b', l2', hsplit', hb', hs', hl1', hl2'⟩
  · have hbm : b ∈ blocks := by rw [hsplit]; simp
    rw [hall b hbm] at hcond
    cases hcond
  · have hbm : b ∈ blocks := by rw [hsplit]; simp
    have hbm' : b' ∈ blocks := by rw [hsplit']; simp
    rw [hs']
    by_cases hbb : b = b'
    · rw [hbb]
    by_cases hbl1' : b ∈ l1'
    · have h1 := hl1' b hbl1' hcond
      have h2 := hmin b' hbm' hb'
      rw [h2] at h1
      cases h1
    by_cases hb'l1 : b' ∈ l1
    · have h1 := hfirst b' hb'l1 hb'
      have hbl2' : b ∈ l2' := by
        rw [hsplit'] at hbm
        rcases List.mem_append.1 hbm with h | h
        · exact absurd h hbl1'
        · rcases List.mem_cons.1 h with h | h
          · exact absurd h hbb
          · exact h
      have h2 := hl2' b hbl2' hcond
      rw [h2] at h1
      cases h1
    · exfalso
      have heqs : l1 ++ b :: l2 = l1' ++ b' :: l2' := hsplit.symm.trans hsplit'
      have hlen1 : l1'.length < l1.length := split_length_lt heqs hbl1' hbb
      have hlen2 : l1.length < l1'.length :=
        split_length_lt heqs.symm hb'l1 (Ne.symm hbb)
      omega

/-- Claim C9 witness: two coincident blocks tie exactly; the first in
iteration order (id 5) is selected. -/
theorem tie_break_keeps_first_witness :
    ([⟨5, true, ⟨0, 0, 0⟩, 0, false⟩, ⟨7, true, ⟨0, 0, 0⟩, 0, false⟩] :
        List Entity) = [] ++ (⟨5, true, ⟨0, 0, 0⟩, 0, false⟩ : Entity) ::
        [⟨7, true, ⟨0, 0, 0⟩, 0, false⟩] ∧
    condHit (⟨0, 0, -3⟩ : Vec3) (⟨0, 0, 1⟩ : Vec3)
      ⟨5, true, ⟨0, 0, 0⟩, 0, false⟩ = true ∧
    (findClosest (⟨0, 0, -3⟩ : Vec3) (⟨0, 0, 1⟩ : Vec3)
      [⟨5, true, ⟨0, 0, 0⟩, 0, false⟩, ⟨7, true, ⟨0, 0, 0⟩, 0, false⟩]).1 =
      some (⟨5, true, ⟨0, 0, 0⟩, 0, false⟩ : Entity).id := by
  refine ⟨rfl, by with_unfolding_all rfl, ?_⟩
  apply tie_break_keeps_first ⟨0, 0, -3⟩ ⟨0, 0, 1⟩
    [⟨5, true, ⟨0, 0, 0⟩, 0, false⟩, ⟨7, true, ⟨0, 0, 0⟩, 0, false⟩]
    [] ⟨5, true, ⟨0, 0, 0⟩, 0, false⟩
    [⟨7, true, ⟨0, 0, 0⟩, 0, false⟩] rfl
  · with_unfolding_all rfl
  · intro b2 hb2 hc2
    fin_cases hb2 <;> with_unfolding_all rfl
  · intro b2 hb2 hc2
    simp at hb2

/-- Claim C8: the slab test performs its six divisions unconditionally (the
embedded `slab_ts`/`rayAABB` apply `fdivQ` with no zero pre-check and are
total functions, so no run fails fatally), and the NaN/infinity values
produced by a zero direction component flow through the `min`/`max`
combination and the comparisons so that any box whose test produces a NaN is
not selected as a hit: its hit condition is `false`, and everything the
search selects satisfies the hit condition. -/
theorem nan_box_never_selected (o d : Vec3) :
    (∀ e : Entity, (slab_ts o d e.pos).hasNaN = true → condHit o d e = false) ∧
    (∀ (blocks : List Entity) (eid : ℕ),
      (findClosest o d blocks).1 = some eid →
      ∃ b ∈ blocks, b.id = eid ∧ condHit o d b = true) := by
  constructor
  · intro e h
    rcases hasNaN_inf h with h1 | h1
    · exact condHit_false_of_tentry_posinf h1
    · exact condHit_false_of_texit_neginf h1
  · intro blocks eid hf
    exact findClosest_some_mem hf

/-- Claim C8 witness: direction `(0,0,1)` has zero x and y components and the
origin lies exactly on the x-low face plane, producing a `0/0` NaN; the box
is excluded, while a genuinely hit box is selected with its hit condition
true. -/
theorem nan_box_never_selected_witness :
    (slab_ts ⟨-1 / 2, 0, -3⟩ ⟨0, 0, 1⟩
      (⟨0, true, ⟨0, 0, 0⟩, 0, false⟩ : Entity).pos).hasNaN = true ∧
    condHit ⟨-1 / 2, 0, -3⟩ ⟨0, 0, 1⟩ ⟨0, true, ⟨0, 0, 0⟩, 0, false⟩ = false ∧
    (findClosest ⟨0, 0, -3⟩ ⟨0, 0, 1⟩ demoWorld).1 = some 0 ∧
    (∃ b ∈ demoWorld, b.id = 0 ∧ condHit ⟨0, 0, -3⟩ ⟨0, 0, 1⟩ b = true) :=
  ⟨by with_unfolding_all rfl,
    (nan_box_never_selected ⟨-1 / 2, 0, -3⟩ ⟨0, 0, 1⟩).1
      ⟨0, true, ⟨0, 0, 0⟩, 0, false⟩ (by with_unfolding_all rfl),
    by with_unfolding_all rfl,
    (nan_box_never_selected ⟨0, 0, -3⟩ ⟨0, 0, 1⟩).2 demoWorld 0
      (by with_unfolding_all rfl)⟩

lemma clearEnt_material (bm : BlockMaterials) (a : Entity) :
    (clearEnt bm a).material =
      if a.highlight = true ∧ a.block = true then bm.normal else a.material := by
  by_cases hh : a.highlight = true <;> by_cases hb : a.block = true <;>
    simp [clearEnt, hh, hb]

lemma apply_clear_material (bm : BlockMaterials) (eid : ℕ) (a : Entity) :
    (applyEnt bm eid (clearEnt bm a)).material =
      if a.id = eid ∧ a.block = true then bm.highlighted
      else if a.highlight = true ∧ a.block = true then bm.normal
      else a.material := by
  by_cases hh : a.highlight = true <;> by_cases hb : a.block = true <;>
    by_cases hid : a.id = eid <;>
    simp [clearEnt, applyEnt, hh, hb, hid]

/-- Claim C6 counterexample: with the previous frame's highlight on one block
and the crosshair over another, one run writes two material changes — the
stale block is reset to normal and the newly hovered block is set to
highlighted — refuting "at most one material change per run". -/
theorem two_material_changes_cex :
    (([⟨0, true, ⟨0, 10, 0⟩, 1, true⟩, ⟨1, true, ⟨0, 0, 0⟩, 0, false⟩] :
        List Entity).zip (highlight_hovered_block [demoWin] [demoCam] demoBM
        [⟨0, true, ⟨0, 10, 0⟩, 1, true⟩, ⟨1, true, ⟨0, 0, 0⟩, 0, false⟩])).countP
      (fun p => !(p.1.material == p.2.material)) = 2 ∧
    ¬((([⟨0, true, ⟨0, 10, 0⟩, 1, true⟩, ⟨1, true, ⟨0, 0, 0⟩, 0, false⟩] :
        List Entity).zip (highlight_hovered_block [demoWin] [demoCam] demoBM
        [⟨0, true, ⟨0, 10, 0⟩, 1, true⟩, ⟨1, true, ⟨0, 0, 0⟩, 0, false⟩])).countP
      (fun p => !(p.1.material == p.2.material)) ≤ 1) := by
  have h2 : (([⟨0, true, ⟨0, 10, 0⟩, 1, true⟩, ⟨1, true, ⟨0, 0, 0⟩, 0, false⟩] :
      List Entity).zip (highlight_hovered_block [demoWin] [demoCam] demoBM
      [⟨0, true, ⟨0, 10, 0⟩, 1, true⟩, ⟨1, true, ⟨0, 0, 0⟩, 0, false⟩])).countP
      (fun p => !(p.1.material == p.2.material)) = 2 := by
    with_unfolding_all rfl
  exact ⟨h2, by rw [h2]; decide⟩

/-- Claim C6 (amended): per run, at most one entity's material reference is
changed to the highlighted handle — the apply phase writes at most one
highlight — and every other material change is a previously marked live
Block being reset to the normal handle by the clear phase.  (Hypotheses:
distinct entity ids, and distinct normal/highlighted handles, both guaranteed
by the host engine.) -/
theorem highlight_write_bound (windows : List Window) (cameras : List Camera)
    (bm : BlockMaterials) (world : List Entity)
    (hN : (world.map (fun e => e.id)).Nodup)
    (hmats : bm.normal ≠ bm.highlighted) :
    ((world.zip (highlight_hovered_block windows cameras bm world)).countP
      (fun p => !(p.1.material == p.2.material) &&
        (p.2.material == bm.highlighted)) ≤ 1) ∧
    (∀ p ∈ world.zip (highlight_hovered_block windows cameras bm world),
      p.1.material ≠ p.2.material →
        p.2.material = bm.highlighted ∨
        (p.1.highlight = true ∧ p.1.block = true ∧ p.2.material = bm.normal)) := by
  rcases run_shape windows cameras bm world with heq | ⟨ray, eid, hf, heq⟩
  · rw [heq]
    unfold clearPhase
    rw [zip_map_self]
    constructor
    · rw [List.countP_map]
      have hz : world.countP ((fun p : Entity × Entity =>
          !(p.1.material == p.2.material) && (p.2.material == bm.highlighted)) ∘
            (fun a => (a, clearEnt bm a))) = 0 := by
        rw [List.countP_eq_zero]
        intro a ha
        show ¬(!(a.material == (clearEnt bm a).material) &&
          ((clearEnt bm a).material == bm.highlighted)) = true
        rw [clearEnt_material]
        by_cases hc : a.highlight = true ∧ a.block = true
        · simp [hc, hmats]
        · simp [hc]
      rw [hz]
      exact Nat.zero_le 1
    · intro p hp hchange
      obtain ⟨a, -, rfl⟩ := List.mem_map.1 hp
      have hm : (clearEnt bm a).material =
          if a.highlight = true ∧ a.block = true then bm.normal
          else a.material := clearEnt_material bm a
      by_cases hc : a.highlight = true ∧ a.block = true
      · rw [hm, if_pos hc]
        exact Or.inr ⟨hc.1, hc.2, rfl⟩
      · rw [hm, if_neg hc] at hchange
        exact absurd rfl hchange
  · rw [heq]
    unfold applyPhase clearPhase
    rw [List.map_map, zip_map_self]
    constructor
    · rw [List.countP_map]
      have hmono : ∀ a ∈ world, ((fun p : Entity × Entity =>
          !(p.1.material == p.2.material) && (p.2.material == bm.highlighted)) ∘
            (fun a => (a, applyEnt bm eid (clearEnt bm a)))) a →
          (fun e => e.id == eid) a := by
        intro a ha hpa
        show (a.id == eid) = true
        simp only [Function.comp] at hpa
        rw [Bool.and_eq_true] at hpa
        obtain ⟨hne, hhi⟩ := hpa
        rw [beq_iff_eq] at hhi
        by_contra hid
        rw [beq_iff_eq] at hid
        rw [apply_clear_material] at hhi
        rw [if_neg (by intro hc; exact hid hc.1)] at hhi
        by_cases hc : a.highlight = true ∧ a.block = true
        · rw [if_pos hc] at hhi
          exact hmats hhi
        · rw [if_neg hc] at hhi
          rw [apply_clear_material, if_neg (by intro hc2; exact hid hc2.1),
            if_neg hc, hhi] at hne
          simp at hne
      calc world.countP _ ≤ world.countP (fun e => e.id == eid) :=
            List.countP_mono_left hmono
        _ ≤ 1 := countP_id_le_one hN eid
    · intro p hp hchange
      obtain ⟨a, -, rfl⟩ := List.mem_map.1 hp
      simp only [Function.comp_apply] at hchange ⊢
      have hm := apply_clear_material bm eid a
      by_cases hida : a.id = eid ∧ a.block = true
      · rw [hm, if_pos hida]
        exact Or.inl rfl
      · by_cases hc : a.highlight = true ∧ a.block = true
        · rw [hm, if_neg hida, if_pos hc]
          exact Or.inr ⟨hc.1, hc.2, rfl⟩
        · rw [hm, if_neg hida, if_neg hc] at hchange
          exact absurd rfl hchange

/-- Claim C6 witness for the amended statement: the two-change scenario of
the counterexample satisfies the amended bound. -/
theorem highlight_write_bound_witness :
    (([⟨0, true, ⟨0, 10, 0⟩, 1, true⟩, ⟨1, true, ⟨0, 0, 0⟩, 0, false⟩] :
        List Entity).map (fun e => e.id)).Nodup ∧
    demoBM.normal ≠ demoBM.highlighted ∧
    ((([⟨0, true, ⟨0, 10, 0⟩, 1, true⟩, ⟨1, true, ⟨0, 0, 0⟩, 0, false⟩] :
        List Entity).zip (highlight_hovered_block [demoWin] [demoCam] demoBM
        [⟨0, true, ⟨0, 10, 0⟩, 1, true⟩, ⟨1, true, ⟨0, 0, 0⟩, 0, false⟩])).countP
      (fun p => !(p.1.material == p.2.material) &&
        (p.2.material == demoBM.highlighted)) ≤ 1) ∧
    (∀ p ∈ ([⟨0, true, ⟨0, 10, 0⟩, 1, true⟩, ⟨1, true, ⟨0, 0, 0⟩, 0, false⟩] :
        List Entity).zip (highlight_hovered_block [demoWin] [demoCam] demoBM
        [⟨0, true, ⟨0, 10, 0⟩, 1, true⟩, ⟨1, true, ⟨0, 0, 0⟩, 0, false⟩]),
      p.1.material ≠ p.2.material →
        p.2.material = demoBM.highlighted ∨
        (p.1.highlight = true ∧ p.1.block = true ∧ p.2.material = demoBM.normal)) := by
  refine ⟨by decide, by decide, ?_, ?_⟩
  · exact (highlight_write_bound [demoWin] [demoCam] demoBM
      [⟨0, true, ⟨0, 10, 0⟩, 1, true⟩, ⟨1, true, ⟨0, 0, 0⟩, 0, false⟩]
      (by decide) (by decide)).1
  · exact (highlight_write_bound [demoWin] [demoCam] demoBM
      [⟨0, true, ⟨0, 10, 0⟩, 1, true⟩, ⟨1, true, ⟨0, 0, 0⟩, 0, false⟩]
      (by decide) (by decide)).2

/-- Claim C5: the hit test computes each block's AABB as
`[position - 0.5, position + 0.5]` per axis — it is the size-parameterized
slab test instantiated at the fixed size `1.0`.  Independence from the
configured `block_size` is structural: `slab_ts`, `rayAABB` and the whole
nearest-hit search take no `Settings` argument at all, unlike
`generate_chunk`. -/
theorem hit_test_fixed_unit_size (o d p : Vec3) :
    slab_ts o d p = slab_ts_sized 1 o d p ∧
    rayAABB o d p = rayAABB_sized 1 o d p ∧
    Vec3.sub p (Vec3.splat (1 / 2)) = ⟨p.x - 1 / 2, p.y - 1 / 2, p.z - 1 / 2⟩ ∧
    Vec3.add p (Vec3.splat (1 / 2)) = ⟨p.x + 1 / 2, p.y + 1 / 2, p.z + 1 / 2⟩ :=
  ⟨rfl, rfl, rfl, rfl⟩

/-- Claim C3: for every configuration with positive block size (and any
chunk size), `generate_chunk` creates exactly `chunk_size²` entities, all
tagged Block, assigned the normal material, marked visible, and positioned at
`(x·block_size, 0, z·block_size)`; every pair `x, z < chunk_size` is realized
and, positions being pairwise distinct, by exactly one entity. -/
lemma length_flatMap_map_range {β : Type} (n : ℕ) (g : ℕ → ℕ → β) :
    ((List.range n).flatMap (fun (z : ℕ) =>
      (List.range n).map (g z))).length = n ^ 2 := by
  rw [List.length_flatMap]
  rw [show (List.length ∘ fun (z : ℕ) => (List.range n).map (g z)) =
    fun _ => n from funext fun z => by simp]
  rw [List.map_const', List.sum_replicate, smul_eq_mul, List.length_range, sq]

lemma nodup_flatMap_map_range {β : Type} (n : ℕ) (g : ℕ → ℕ → β)
    (hginj : ∀ z, Function.Injective (g z))
    (hdis : ∀ z1 z2, z1 ≠ z2 → ∀ x1 x2, g z1 x1 ≠ g z2 x2) :
    ((List.range n).flatMap (fun (z : ℕ) =>
      (List.range n).map (g z))).Nodup := by
  rw [List.nodup_flatMap]
  constructor
  · intro z hz
    exact (List.nodup_range n).map (hginj z)
  · refine (List.pairwise_lt_range n).imp ?_
    intro z1 z2 hlt
    intro v hv1 hv2
    obtain ⟨x1, -, rfl⟩ := List.mem_map.1 hv1
    obtain ⟨x2, -, hv⟩ := List.mem_map.1 hv2
    exact hdis z1 z2 (Nat.ne_of_lt hlt) x1 x2 hv.symm

theorem generate_chunk_spec (bm : BlockMaterials) (s : Settings)
    (hbs : 0 < s.world.block_size) :
    (generate_chunk bm s).length = s.world.chunk_size ^ 2 ∧
    (∀ e ∈ generate_chunk bm s, e.block = true ∧ e.material = bm.normal ∧
      e.visible = true ∧ ∃ x z : ℕ, x < s.world.chunk_size ∧
        z < s.world.chunk_size ∧
        e.pos = ⟨(x : ℚ) * s.world.block_size, 0, (z : ℚ) * s.world.block_size⟩) ∧
    (∀ x z : ℕ, x < s.world.chunk_size → z < s.world.chunk_size →
      ∃ e ∈ generate_chunk bm s,
        e.pos = ⟨(x : ℚ) * s.world.block_size, 0, (z : ℚ) * s.world.block_size⟩) ∧
    ((generate_chunk bm s).map (fun e => e.pos)).Nodup := by
  have hinj : ∀ z : ℕ, Function.Injective (fun x : ℕ =>
      (⟨(x : ℚ) * s.world.block_size, 0, (z : ℚ) * s.world.block_size⟩ : Vec3)) := by
    intro z a b h
    rw [Vec3.mk.injEq] at h
    exact Nat.cast_injective (mul_right_cancel₀ hbs.ne' h.1)
  refine ⟨?_, ?_, ?_, ?_⟩
  · exact length_flatMap_map_range s.world.chunk_size
      (fun (z x : ℕ) => (⟨true, s.world.block_size - grid_offset, bm.normal,
        ⟨(x : ℚ) * s.world.block_size, 0, (z : ℚ) * s.world.block_size⟩, true⟩ :
          Spawned))
  · intro e he
    obtain ⟨z, hz, he2⟩ := List.mem_flatMap.1 he
    obtain ⟨x, hx, rfl⟩ := List.mem_map.1 he2
    exact ⟨rfl, rfl, rfl, x, z, List.mem_range.1 hx, List.mem_range.1 hz, rfl⟩
  · intro x z hx hz
    refine ⟨⟨true, s.world.block_size - grid_offset, bm.normal,
      ⟨(x : ℚ) * s.world.block_size, 0, (z : ℚ) * s.world.block_size⟩, true⟩,
      List.mem_flatMap.2 ⟨z, List.mem_range.2 hz,
        List.mem_map.2 ⟨x, List.mem_range.2 hx, rfl⟩⟩, rfl⟩
  · have hmm : (generate_chunk bm s).map (fun e => e.pos) =
        (List.range s.world.chunk_size).flatMap (fun (z : ℕ) =>
          (List.range s.world.chunk_size).map (fun (x : ℕ) =>
            (⟨(x : ℚ) * s.world.block_size, 0,
              (z : ℚ) * s.world.block_size⟩ : Vec3))) := by
      show ((List.range s.world.chunk_size).flatMap _).map _ = _
      rw [List.map_flatMap]
      simp only [List.map_map]
      rfl
    rw [hmm]
    refine nodup_flatMap_map_range s.world.chunk_size _ hinj ?_
    intro z1 z2 hne x1 x2 h
    rw [Vec3.mk.injEq] at h
    exact hne (Nat.cast_injective (mul_right_cancel₀ hbs.ne' h.2.2))

/-- Claim C3 witness: a 2×2 grid with unit block size. -/
theorem generate_chunk_spec_witness :
    (0 : ℚ) < (⟨⟨1, 2⟩⟩ : Settings).world.block_size ∧
    ((generate_chunk demoBM ⟨⟨1, 2⟩⟩).length =
        (⟨⟨1, 2⟩⟩ : Settings).world.chunk_size ^ 2 ∧
    (∀ e ∈ generate_chunk demoBM ⟨⟨1, 2⟩⟩, e.block = true ∧
      e.material = demoBM.normal ∧ e.visible = true ∧
      ∃ x z : ℕ, x < (⟨⟨1, 2⟩⟩ : Settings).world.chunk_size ∧
        z < (⟨⟨1, 2⟩⟩ : Settings).world.chunk_size ∧
        e.pos = ⟨(x : ℚ) * (⟨⟨1, 2⟩⟩ : Settings).world.block_size, 0,
          (z : ℚ) * (⟨⟨1, 2⟩⟩ : Settings).world.block_size⟩) ∧
    (∀ x z : ℕ, x < (⟨⟨1, 2⟩⟩ : Settings).world.chunk_size →
      z < (⟨⟨1, 2⟩⟩ : Settings).world.chunk_size →
      ∃ e ∈ generate_chunk demoBM ⟨⟨1, 2⟩⟩,
        e.pos = ⟨(x : ℚ) * (⟨⟨1, 2⟩⟩ : Settings).world.block_size, 0,
          (z : ℚ) * (⟨⟨1, 2⟩⟩ : Settings).world.block_size⟩) ∧
    ((generate_chunk demoBM ⟨⟨1, 2⟩⟩).map (fun e => e.pos)).Nodup) :=
  ⟨by decide, generate_chunk_spec demoBM ⟨⟨1, 2⟩⟩ (by decide)⟩

example :
    tentry ⟨0, 0, -3⟩ ⟨0, 0, 1⟩ ⟨0, 0, 0⟩ = .fin (5 / 2) := by with_unfolding_all rfl

example :
    (findClosest ⟨0, 0, -3⟩ ⟨0, 0, 1⟩
      [⟨7, true, ⟨0, 0, 0⟩, 4, false⟩]).1 = some 7 := by with_unfolding_all rfl

example :
    (findClosest ⟨0, 0, -10⟩ ⟨0, 0, 1⟩
      [⟨7, true, ⟨0, 0, 0⟩, 4, false⟩]).1 = none := by with_unfolding_all rfl

end MinecraftClone
